import Mathlib

/-!
Verification of the gap-fill quiz generator (`src/app.py`) against its
specification.  The passage text is modelled as `List Char` (Python `str`);
Python regular-expression word splitting, the gap-text builder
`create_gap_text`, the Gemini-response post-processing in
`get_word_info_from_gemini`, and the scoring loop behind the 採点する button
are shallowly embedded below, translated line by line from the source.
-/

/-- Models Python's `\w` character class for ASCII text: letters, digits and
underscore.  (The `re` module's Unicode extensions are outside the model; every
theorem below is structural in this predicate.) -/
def isWordChar (c : Char) : Bool :=
  c.isAlphanum || c == '_'

/-- Python `str.lower()` applied to a word (ASCII case folding). -/
def lowerWord (w : List Char) : List Char :=
  w.map Char.toLower

/-- Python `str.strip()`: remove leading and trailing whitespace. -/
def pyStrip (s : List Char) : List Char :=
  ((s.dropWhile Char.isWhitespace).reverse.dropWhile Char.isWhitespace).reverse

/-- One step of `re.split(r'(\b\w+\b)', text)`: with fuel at least `s.length`
this splits `s` into the leading run of non-word characters, the following
maximal run of word characters, and recurses on the remainder, exactly
reproducing Python's alternating `[gap, word, gap, word, …, gap]` part list
(the regex `\b\w+\b` matches precisely the maximal runs of `\w` characters,
and `re.split` with a capturing group keeps them). -/
def reSplitAux : Nat → List Char → List (List Char)
  | 0, s => [s]
  | fuel+1, s =>
    let pre := s.takeWhile (fun c => !isWordChar c)
    let rest := s.dropWhile (fun c => !isWordChar c)
    if rest.isEmpty then [pre]
    else pre :: rest.takeWhile isWordChar :: reSplitAux fuel (rest.dropWhile isWordChar)

/-- `re.split(r'(\b\w+\b)', text)` from `create_gap_text`. -/
def reSplitWords (s : List Char) : List (List Char) :=
  reSplitAux s.length s

/-- Truthiness of `re.match(r'\b\w+\b', part)` on a part produced by the
split: the match succeeds exactly when the part starts with a word character
(`re.match` is anchored at position 0; `\b` holds there only before a word
character, and `\w+\b` then always completes). -/
def isWordStart : List Char → Bool
  | [] => false
  | c :: _ => isWordChar c

/-- The placeholder string `f'[GAP_{gap_count}]'`. -/
def gapMarker (n : Nat) : List Char :=
  "[GAP_".toList ++ (Nat.repr n).toList ++ "]".toList

/-- The `for part in parts` loop of `create_gap_text`: state is the remaining
parts, the running `gap_count` and `words_hidden_in_order`; returns
(`new_parts`, `correct_positions`).  The guard mirrors
`if is_word and part.lower() in hide_set and part not in words_hidden_in_order`. -/
def gapLoop (hide_set : List (List Char)) :
    List (List Char) → Nat → List (List Char) → List (List Char) × List (List Char)
  | [], _, _ => ([], [])
  | part :: rest, gap_count, hidden =>
    if isWordStart part = true ∧ lowerWord part ∈ hide_set ∧ part ∉ hidden then
      let r := gapLoop hide_set rest (gap_count + 1) (hidden ++ [part])
      (gapMarker gap_count :: r.1, part :: r.2)
    else
      let r := gapLoop hide_set rest gap_count hidden
      (part :: r.1, r.2)

/-- `create_gap_text` before the final `"".join(new_parts)`:
`hide_set = {w.lower() for w in words_to_hide}` (a set, so only membership
matters), initial `gap_count = 0`, `words_hidden_in_order = []`. -/
def create_gap_parts (text : List Char) (words_to_hide : List (List Char)) :
    List (List Char) × List (List Char) :=
  gapLoop (words_to_hide.map lowerWord) (reSplitWords text) 0 []

/-- `create_gap_text(text, words_to_hide)`: returns
(`final_gap_text`, `correct_positions`). -/
def create_gap_text (text : List Char) (words_to_hide : List (List Char)) :
    List Char × List (List Char) :=
  ((create_gap_parts text words_to_hide).1.flatten, (create_gap_parts text words_to_hide).2)

/-- Substitution of the placeholders of a display document back by the stored
answers: walking the emitted parts, the `i`-th placeholder — which is exactly
the part `[GAP_i]` — is replaced by `correctAnswers[i]`; every other part is
kept verbatim. -/
def substGaps (answers : List (List Char)) : Nat → List (List Char) → List (List Char)
  | _, [] => []
  | i, p :: ps =>
    if p = gapMarker i then answers.getD i [] :: substGaps answers (i + 1) ps
    else p :: substGaps answers i ps

/-- A part of the regex split is homogeneous: all word characters (a `\w+`
match) or all non-word characters (an inter-match gap). -/
def partHomog (p : List Char) : Bool :=
  p.all isWordChar || p.all (fun c => !isWordChar c)

/-- Recogniser for placeholder parts: `"[GAP_" ++ digits ++ "]"` with a
non-empty decimal index. -/
def isMarkerPart (p : List Char) : Bool :=
  decide (p.take 5 = "[GAP_".toList ∧ (p.drop 5).dropLast ≠ [] ∧
    (∀ c ∈ (p.drop 5).dropLast, c.isDigit = true) ∧ (p.drop 5).getLast? = some ']')

example : reSplitWords "the cat".toList =
    [[], "the".toList, " ".toList, "cat".toList, []] := by decide

example : create_gap_text "the cat sat on the mat".toList ["the".toList] =
    ("[GAP_0] cat sat on the mat".toList, ["the".toList]) := by decide

/-! ### Structural facts about the regex split -/

theorem reSplitAux_flatten : ∀ (fuel : Nat) (s : List Char), (reSplitAux fuel s).flatten = s := by
  intro fuel
  induction fuel with
  | zero => intro s; simp [reSplitAux]
  | succ n ih =>
    intro s
    simp only [reSplitAux]
    by_cases h : (s.dropWhile (fun c => !isWordChar c)).isEmpty
    · have h2 : s.dropWhile (fun c => !isWordChar c) = [] := by
        simpa [List.isEmpty_iff] using h
      simp only [h, if_pos]
      conv_rhs => rw [← List.takeWhile_append_dropWhile (p := fun c => !isWordChar c) (l := s)]
      simp [h2]
    · simp only [h, if_neg, Bool.false_eq_true, not_false_iff, List.flatten_cons, ih]
      rw [List.takeWhile_append_dropWhile, List.takeWhile_append_dropWhile]

theorem reSplitAux_homog : ∀ (fuel : Nat) (s : List Char), s.length ≤ fuel →
    ∀ p ∈ reSplitAux fuel s, partHomog p = true := by
  intro fuel
  induction fuel with
  | zero =>
    intro s hs p hp
    have h0 : s = [] := List.length_eq_zero.mp (Nat.le_zero.mp hs)
    subst h0
    simp [reSplitAux] at hp
    subst hp
    simp [partHomog]
  | succ n ih =>
    intro s hs p hp
    simp only [reSplitAux] at hp
    by_cases h : (s.dropWhile (fun c => !isWordChar c)).isEmpty
    · simp only [h, if_pos, List.mem_singleton] at hp
      subst hp
      simp only [partHomog, Bool.or_eq_true, List.all_eq_true]
      exact Or.inr fun x hx => List.mem_takeWhile_imp (p := fun c => !isWordChar c) hx
    · simp only [h, if_neg, Bool.false_eq_true, not_false_iff, List.mem_cons] at hp
      rcases hp with hp | hp | hp
      · subst hp
        simp only [partHomog, Bool.or_eq_true, List.all_eq_true]
        exact Or.inr fun x hx => List.mem_takeWhile_imp (p := fun c => !isWordChar c) hx
      · subst hp
        simp only [partHomog, Bool.or_eq_true, List.all_eq_true]
        exact Or.inl fun x hx => List.mem_takeWhile_imp (p := isWordChar) hx
      · -- recursive part: the remainder is strictly shorter
        have hne : s.dropWhile (fun c => !isWordChar c) ≠ [] := by
          simpa [List.isEmpty_iff] using h
        obtain ⟨c, cs, hcs⟩ := List.exists_cons_of_ne_nil hne
        have hcw : isWordChar c = true := by
          have := List.head?_dropWhile_not (fun c => !isWordChar c) s
          rw [hcs] at this
          simpa using this
        have hdw : (s.dropWhile (fun c => !isWordChar c)).dropWhile isWordChar
            = cs.dropWhile isWordChar := by
          rw [hcs, List.dropWhile_cons_of_pos hcw]
        have hlen1 : (s.dropWhile (fun c => !isWordChar c)).length ≤ s.length :=
          (List.dropWhile_sublist _).length_le
        have hlen2 : (cs.dropWhile isWordChar).length ≤ cs.length :=
          (List.dropWhile_sublist _).length_le
        have hlen3 : cs.length + 1 = (s.dropWhile (fun c => !isWordChar c)).length := by
          rw [hcs]; simp
        refine ih _ ?_ p (by rwa [hdw] at hp)
        omega

theorem reSplitWords_flatten (s : List Char) : (reSplitWords s).flatten = s :=
  reSplitAux_flatten s.length s

theorem reSplitWords_homog (s : List Char) : ∀ p ∈ reSplitWords s, partHomog p = true :=
  reSplitAux_homog s.length s (Nat.le_refl _)

/-! ### Facts about decimal digit strings and the placeholder shape -/

theorem digitChar_isDigit (m : Nat) (h : m < 10) : (Nat.digitChar m).isDigit = true := by
  interval_cases m <;> decide

theorem toDigitsCore_ne_nil : ∀ (fuel n : Nat) (ds : List Char),
    ds ≠ [] ∨ 0 < fuel → Nat.toDigitsCore 10 fuel n ds ≠ [] := by
  intro fuel
  induction fuel with
  | zero =>
    intro n ds h
    simp only [Nat.toDigitsCore]
    exact h.resolve_right (by omega)
  | succ k ih =>
    intro n ds _
    simp only [Nat.toDigitsCore]
    split
    · exact List.cons_ne_nil _ _
    · exact ih _ _ (Or.inl (List.cons_ne_nil _ _))

theorem toDigitsCore_digits : ∀ (fuel n : Nat) (ds : List Char),
    (∀ c ∈ ds, c.isDigit = true) →
    ∀ c ∈ Nat.toDigitsCore 10 fuel n ds, c.isDigit = true := by
  intro fuel
  induction fuel with
  | zero => intro n ds h; simpa [Nat.toDigitsCore] using h
  | succ k ih =>
    intro n ds h c hc
    have hd : ∀ x ∈ Nat.digitChar (n % 10) :: ds, x.isDigit = true := by
      intro x hx
      rcases List.mem_cons.mp hx with hx | hx
      · subst hx; exact digitChar_isDigit _ (Nat.mod_lt _ (by omega))
      · exact h x hx
    simp only [Nat.toDigitsCore] at hc
    split at hc
    · exact hd c hc
    · exact ih _ _ hd c hc

theorem natRepr_toList (n : Nat) : (Nat.repr n).toList = Nat.toDigits 10 n := rfl

theorem natRepr_ne_nil (n : Nat) : (Nat.repr n).toList ≠ [] := by
  rw [natRepr_toList, Nat.toDigits]
  exact toDigitsCore_ne_nil _ _ _ (Or.inr (by omega))

theorem natRepr_digits (n : Nat) : ∀ c ∈ (Nat.repr n).toList, c.isDigit = true := by
  rw [natRepr_toList, Nat.toDigits]
  exact toDigitsCore_digits _ _ _ (by intro c hc; simp at hc)

theorem gapMarker_eq_cons (n : Nat) :
    gapMarker n = '[' :: 'G' :: 'A' :: 'P' :: '_' :: ((Nat.repr n).toList ++ [']']) := by
  simp [gapMarker]

theorem homog_ne_gapMarker {p : List Char} (h : partHomog p = true) (n : Nat) :
    p ≠ gapMarker n := by
  intro e
  rw [e, gapMarker_eq_cons] at h
  have h1 : isWordChar '[' = false := by decide
  have h2 : isWordChar 'G' = true := by decide
  simp [partHomog, List.all_cons, h1, h2] at h

theorem isMarkerPart_gapMarker (n : Nat) : isMarkerPart (gapMarker n) = true := by
  have ht : (gapMarker n).take 5 = "[GAP_".toList := by
    rw [gapMarker]
    rw [List.append_assoc]
    exact List.take_left' (by decide)
  have hd : (gapMarker n).drop 5 = (Nat.repr n).toList ++ [']'] := by
    rw [gapMarker]
    rw [List.append_assoc]
    exact List.drop_left' (by decide)
  simp only [isMarkerPart, decide_eq_true_eq]
  refine ⟨ht, ?_, ?_, ?_⟩
  · rw [hd]; simpa using natRepr_ne_nil n
  · rw [hd]; simpa using natRepr_digits n
  · rw [hd]; exact List.getLast?_concat _

theorem homog_not_isMarkerPart {p : List Char} (h : partHomog p = true) :
    isMarkerPart p = false := by
  cases hm : isMarkerPart p
  · rfl
  · exfalso
    simp only [isMarkerPart, decide_eq_true_eq] at hm
    have hp : p = "[GAP_".toList ++ p.drop 5 := by
      conv_lhs => rw [← List.take_append_drop 5 p]
      rw [hm.1]
    rw [hp] at h
    have h1 : isWordChar '[' = false := by decide
    have h2 : isWordChar 'G' = true := by decide
    have hs : "[GAP_".toList = ['[', 'G', 'A', 'P', '_'] := rfl
    simp [partHomog, hs, List.all_cons, h1, h2] at h

/-! ### The gap loop: round trip, placeholder indices -/

theorem drop_eq_cons_getElem {α : Type} {A : List α} {n : Nat} {x : α} {xs : List α}
    (h : A.drop n = x :: xs) : A[n]? = some x ∧ A.drop (n + 1) = xs := by
  constructor
  · have h2 := List.head?_drop A n
    rw [h] at h2
    simpa using h2.symm
  · rw [← List.tail_drop, h]
    rfl

theorem gapLoop_substGaps (hs : List (List Char)) :
    ∀ (parts : List (List Char)) (gc : Nat) (hidden A : List (List Char)),
      (∀ p ∈ parts, partHomog p = true) →
      A.drop gc = (gapLoop hs parts gc hidden).2 →
      substGaps A gc (gapLoop hs parts gc hidden).1 = parts := by
  intro parts
  induction parts with
  | nil => intro gc hidden A _ _; simp [gapLoop, substGaps]
  | cons part rest ih =>
    intro gc hidden A hhom hdrop
    by_cases hc : isWordStart part = true ∧ lowerWord part ∈ hs ∧ part ∉ hidden
    · simp only [gapLoop, if_pos hc] at hdrop ⊢
      obtain ⟨hget, hdrop2⟩ := drop_eq_cons_getElem hdrop
      simp only [substGaps]
      rw [if_pos trivial, List.getD_eq_getElem?_getD, hget]
      show part :: _ = part :: rest
      congr 1
      exact ih (gc + 1) _ A (fun p hp => hhom p (List.mem_cons_of_mem _ hp)) hdrop2
    · simp only [gapLoop, if_neg hc] at hdrop ⊢
      have hne : part ≠ gapMarker gc :=
        homog_ne_gapMarker (hhom part (List.mem_cons_self _ _)) gc
      simp only [substGaps, if_neg hne]
      congr 1
      exact ih gc hidden A (fun p hp => hhom p (List.mem_cons_of_mem _ hp)) hdrop

/-- C1: for every passage and every gap-token list, substituting each
placeholder `[GAP_i]` of the display document produced by `create_gap_text`
back by `correctAnswers[i]` and concatenating the parts reproduces the
original passage character for character (all non-gapped parts pass through
verbatim). -/
theorem create_gap_text_roundtrip (text : List Char) (words_to_hide : List (List Char)) :
    (substGaps (create_gap_text text words_to_hide).2 0
      (create_gap_parts text words_to_hide).1).flatten = text := by
  have h := gapLoop_substGaps (words_to_hide.map lowerWord) (reSplitWords text) 0 []
      (create_gap_parts text words_to_hide).2 (reSplitWords_homog text)
      (by rw [List.drop_zero]; rfl)
  calc (substGaps (create_gap_text text words_to_hide).2 0
          (create_gap_parts text words_to_hide).1).flatten
      = (reSplitWords text).flatten := by rw [← h]; rfl
    _ = text := reSplitWords_flatten text

theorem gapLoop_filter_markers (hs : List (List Char)) :
    ∀ (parts : List (List Char)) (gc : Nat) (hidden : List (List Char)),
      (∀ p ∈ parts, partHomog p = true) →
      (gapLoop hs parts gc hidden).1.filter isMarkerPart
        = (List.range' gc (gapLoop hs parts gc hidden).2.length).map gapMarker := by
  intro parts
  induction parts with
  | nil => intro gc hidden _; simp [gapLoop]
  | cons part rest ih =>
    intro gc hidden hhom
    by_cases hc : isWordStart part = true ∧ lowerWord part ∈ hs ∧ part ∉ hidden
    · simp only [gapLoop, if_pos hc]
      rw [List.filter_cons_of_pos (isMarkerPart_gapMarker gc)]
      simp only [List.length_cons, List.range'_succ, List.map_cons]
      congr 1
      exact ih (gc + 1) _ (fun p hp => hhom p (List.mem_cons_of_mem _ hp))
    · simp only [gapLoop, if_neg hc]
      rw [List.filter_cons_of_neg
        (by simp [homog_not_isMarkerPart (hhom part (List.mem_cons_self _ _))])]
      exact ih gc hidden (fun p hp => hhom p (List.mem_cons_of_mem _ hp))

/-- C2: for every passage and gap-token list, the placeholder parts of the
display document built by `create_gap_text` are exactly
`[GAP_0], [GAP_1], …, [GAP_(len-1)]` in this order, where
`len = correctAnswers.length`: their number equals the number of correct
answers and the encoded indices are contiguous from 0 with no gaps and no
repeats. -/
theorem create_gap_text_placeholder_indices (text : List Char)
    (words_to_hide : List (List Char)) :
    (create_gap_parts text words_to_hide).1.filter isMarkerPart
      = (List.range (create_gap_text text words_to_hide).2.length).map gapMarker := by
  rw [List.range_eq_range']
  exact gapLoop_filter_markers _ _ 0 [] (reSplitWords_homog text)

theorem gapLoop_no_tokens :
    ∀ (parts : List (List Char)) (gc : Nat) (hidden : List (List Char)),
      gapLoop [] parts gc hidden = (parts, []) := by
  intro parts
  induction parts with
  | nil => intro gc hidden; simp [gapLoop]
  | cons part rest ih => intro gc hidden; simp [gapLoop, ih]

/-- C10: building gap text with an empty gap-token list is the identity:
`create_gap_text(passage, [])` returns the passage unchanged and an empty
answer list — splitting on word boundaries and rejoining loses nothing. -/
theorem create_gap_text_empty_tokens (text : List Char) :
    create_gap_text text [] = (text, []) := by
  unfold create_gap_text create_gap_parts
  simp [gapLoop_no_tokens, reSplitWords_flatten]

/-! ### First-occurrence behaviour and token-order independence -/

theorem gapLoop_nodup (hs : List (List Char)) :
    ∀ (parts : List (List Char)) (gc : Nat) (hidden : List (List Char)),
      (gapLoop hs parts gc hidden).2.Nodup ∧
      ∀ w ∈ (gapLoop hs parts gc hidden).2, w ∉ hidden := by
  intro parts
  induction parts with
  | nil => intro gc hidden; simp [gapLoop]
  | cons part rest ih =>
    intro gc hidden
    by_cases hc : isWordStart part = true ∧ lowerWord part ∈ hs ∧ part ∉ hidden
    · simp only [gapLoop, if_pos hc]
      obtain ⟨h1, h2⟩ := ih (gc + 1) (hidden ++ [part])
      constructor
      · exact List.nodup_cons.mpr ⟨fun hmem => (h2 part hmem) (by simp), h1⟩
      · intro w hw
        rcases List.mem_cons.mp hw with rfl | hw
        · exact hc.2.2
        · exact fun hwh => (h2 w hw) (List.mem_append_left _ hwh)
    · simp only [gapLoop, if_neg hc]
      exact ih gc hidden

/-- C3 counterexample: in `create_gap_text` the "already hidden" check
`part not in words_hidden_in_order` compares exact surface forms, so a later
occurrence of the same word in a *different* letter casing is gapped as well
instead of remaining literal: on passage "The the" with gap tokens `["the"]`
both occurrences become placeholders even though they are the same word up to
case. -/
theorem create_gap_text_case_variants_both_gapped :
    create_gap_text "The the".toList ["the".toList] =
      ("[GAP_0] [GAP_1]".toList, ["The".toList, "the".toList]) ∧
    lowerWord "The".toList = lowerWord "the".toList := by decide

/-- C3 (amended): `create_gap_text` hides only the first passage occurrence of
each distinct *exact surface form*: the answer list never repeats a surface
form, so a later occurrence of the identical surface form stays literal — as
in the spec's example, where only the first "the" of
"the cat sat on the mat" becomes a gap — but a differently-cased later
occurrence counts as a new surface form and is gapped too ("The the" with
`["the"]` yields two gaps). -/
theorem create_gap_text_first_occurrence :
    (∀ (text : List Char) (words_to_hide : List (List Char)),
        (create_gap_text text words_to_hide).2.Nodup) ∧
    create_gap_text "the cat sat on the mat".toList ["the".toList] =
        ("[GAP_0] cat sat on the mat".toList, ["the".toList]) ∧
    create_gap_text "The the".toList ["the".toList] =
        ("[GAP_0] [GAP_1]".toList, ["The".toList, "the".toList]) :=
  ⟨fun _ w => (gapLoop_nodup (w.map lowerWord) _ 0 []).1, by decide, by decide⟩

theorem gapLoop_congr_mem (hs1 hs2 : List (List Char))
    (hmem : ∀ x, x ∈ hs1 ↔ x ∈ hs2) :
    ∀ (parts : List (List Char)) (gc : Nat) (hidden : List (List Char)),
      gapLoop hs1 parts gc hidden = gapLoop hs2 parts gc hidden := by
  intro parts
  induction parts with
  | nil => intro gc hidden; rfl
  | cons part rest ih =>
    intro gc hidden
    by_cases hc : isWordStart part = true ∧ lowerWord part ∈ hs1 ∧ part ∉ hidden
    · have hc2 : isWordStart part = true ∧ lowerWord part ∈ hs2 ∧ part ∉ hidden :=
        ⟨hc.1, (hmem _).mp hc.2.1, hc.2.2⟩
      simp only [gapLoop, if_pos hc, if_pos hc2, ih]
    · have hc2 : ¬(isWordStart part = true ∧ lowerWord part ∈ hs2 ∧ part ∉ hidden) :=
        fun h => hc ⟨h.1, (hmem _).mpr h.2.1, h.2.2⟩
      simp only [gapLoop, if_neg hc, if_neg hc2, ih]

/-- C4: the output of `create_gap_text` is invariant under permutation of the
gap-token list — the tokens only feed the membership set `hide_set`, and gap
indices are assigned in the order hidden words are encountered left to right
in the passage; concretely, for "the cat sat on the mat" with tokens
`["mat", "cat"]`, gap 0 is "cat" and gap 1 is "mat". -/
theorem create_gap_text_perm_invariant :
    (∀ (text : List Char) (w1 w2 : List (List Char)), w1.Perm w2 →
        create_gap_text text w1 = create_gap_text text w2) ∧
    create_gap_text "the cat sat on the mat".toList ["mat".toList, "cat".toList] =
      ("the [GAP_0] sat on the [GAP_1]".toList, ["cat".toList, "mat".toList]) := by
  constructor
  · intro text w1 w2 hp
    have hm : ∀ x, x ∈ w1.map lowerWord ↔ x ∈ w2.map lowerWord :=
      fun x => (hp.map lowerWord).mem_iff
    unfold create_gap_text create_gap_parts
    rw [gapLoop_congr_mem _ _ hm]
  · decide

/-- C4 witness: the invariance law applied to a concrete scrambled token
list. -/
theorem create_gap_text_perm_invariant_witness :
    create_gap_text "the cat sat on the mat".toList ["mat".toList, "cat".toList] =
      create_gap_text "the cat sat on the mat".toList ["cat".toList, "mat".toList] :=
  create_gap_text_perm_invariant.1 _ _ _ (List.Perm.swap _ _ _)

/-! ### Gemini word extraction (lines 74–86 of `app.py`) -/

/-- `re.findall(r'\b\w+\b', text)` (`all_words`): the word parts of the
split. -/
def findallWords (text : List Char) : List (List Char) :=
  (reSplitWords text).filter isWordStart

/-- The `for word in all_words` loop building
`final_extracted_words_original_order`: append `word` when
`word.lower() in api_words_lower and word not in final_extracted_words_original_order`. -/
def extractLoop (api_words_lower : List (List Char)) :
    List (List Char) → List (List Char) → List (List Char)
  | acc, [] => acc
  | acc, word :: ws =>
    if lowerWord word ∈ api_words_lower ∧ word ∉ acc then
      extractLoop api_words_lower (acc ++ [word]) ws
    else
      extractLoop api_words_lower acc ws

/-- Lines 74–80 of `get_word_info_from_gemini`:
`api_words_lower = {w.lower() for w in extracted_words_from_api}` (membership
only), then the dedup/ordering loop over `all_words`. -/
def extractWords (text : List Char) (extracted_words_from_api : List (List Char)) :
    List (List Char) :=
  extractLoop (extracted_words_from_api.map lowerWord) [] (findallWords text)

theorem extractLoop_nodup_sublist (apiL : List (List Char)) :
    ∀ (ws acc : List (List Char)), acc.Nodup →
      (extractLoop apiL acc ws).Nodup ∧
      ∃ t, extractLoop apiL acc ws = acc ++ t ∧ t.Sublist ws := by
  intro ws
  induction ws with
  | nil => intro acc h; exact ⟨h, [], by simp [extractLoop], List.nil_sublist _⟩
  | cons w ws ih =>
    intro acc h
    by_cases hc : lowerWord w ∈ apiL ∧ w ∉ acc
    · simp only [extractLoop, if_pos hc]
      have hacc : (acc ++ [w]).Nodup := by
        simp [List.nodup_append, h, List.disjoint_singleton, hc.2]
      obtain ⟨h1, t, ht, hsub⟩ := ih (acc ++ [w]) hacc
      refine ⟨h1, w :: t, ?_, List.Sublist.cons₂ _ hsub⟩
      rw [ht, List.append_assoc]
      rfl
    · simp only [extractLoop, if_neg hc]
      obtain ⟨h1, t, ht, hsub⟩ := ih acc h
      exact ⟨h1, t, ht, List.Sublist.cons _ hsub⟩

/-- C5 counterexample: the dedup check `word not in final_…` in
`get_word_info_from_gemini` compares exact surface forms, so the returned list
can contain two entries that are equal ignoring case: for passage "The the"
and parsed response `["the"]` both "The" and "the" are returned. -/
theorem extractWords_case_dedup_fails :
    extractWords "The the".toList ["the".toList] = ["The".toList, "the".toList] ∧
    lowerWord "The".toList = lowerWord "the".toList := by decide

/-- C5 (amended): for every passage and parsed response list, the word list
built by `get_word_info_from_gemini` is deduplicated by *exact* surface match
(no entry repeats), and is a sublist of the passage's whole-word occurrence
sequence — so every entry literally occurs in the passage as a whole word and
the entries appear in passage order, not response order; distinct casings of
the same word may however both appear. -/
theorem extractWords_sublist_nodup (text : List Char) (api : List (List Char)) :
    (extractWords text api).Sublist (findallWords text) ∧ (extractWords text api).Nodup := by
  obtain ⟨h1, t, ht, hsub⟩ :=
    extractLoop_nodup_sublist (api.map lowerWord) (findallWords text) [] List.nodup_nil
  unfold extractWords
  exact ⟨by rw [ht]; simpa using hsub, h1⟩

/-! ### The scorer (採点する button handler, lines 209–231 of `app.py`) -/

/-- Per-gap feedback entry: the three feedback strings appended by the scoring
loop — 未回答 (unanswered), 正解 (correct) and 不正解 (incorrect). -/
inductive GapFeedback where
  | unanswered : GapFeedback
  | correctAns : GapFeedback
  | incorrectAns : GapFeedback
deriving DecidableEq

/-- The `for i, correct_word in enumerate(correct_answers)` scoring loop,
started at index `i`.  `user_answers` models the session dict keyed
`f'gap_{i}'`: `ua i = none` is a missing key, and `.get(..., "")` is
`(ua i).getD []`.  Returns `(score, feedback, is_complete)`; the comparison is
`user_word.lower() == correct_word.lower()` — unconditionally
case-insensitive. -/
def gradeList (user_answers : Nat → Option (List Char)) :
    Nat → List (List Char) → Nat × List GapFeedback × Bool
  | _, [] => (0, [], true)
  | i, correct_word :: rest =>
    let r := gradeList user_answers (i + 1) rest
    let user_word := pyStrip ((user_answers i).getD [])
    if user_word = [] then (r.1, GapFeedback.unanswered :: r.2.1, false)
    else if lowerWord user_word = lowerWord correct_word then
      (r.1 + 1, GapFeedback.correctAns :: r.2.1, r.2.2)
    else (r.1, GapFeedback.incorrectAns :: r.2.1, r.2.2)

/-- The scorer: grades the whole answer list (`score = 0`, `feedback = []`,
`is_complete = True` initially, loop from gap 0). -/
def gradeAnswers (correct_answers : List (List Char)) (user_answers : Nat → Option (List Char)) :
    Nat × List GapFeedback × Bool :=
  gradeList user_answers 0 correct_answers

theorem gradeList_unanswered (ua : Nat → Option (List Char)) :
    ∀ (ca : List (List Char)) (k j : Nat), j < ca.length →
      pyStrip ((ua (k + j)).getD []) = [] →
      ((gradeList ua k ca).2.1)[j]? = some GapFeedback.unanswered ∧
      (gradeList ua k ca).2.2 = false := by
  intro ca
  induction ca with
  | nil => intro k j h; simp at h
  | cons c rest ih =>
    intro k j hj hstrip
    match j with
    | 0 =>
      simp only [Nat.add_zero] at hstrip
      simp [gradeList, hstrip]
    | j' + 1 =>
      have hlt : j' < rest.length := by simpa using hj
      have hstrip2 : pyStrip ((ua (k + 1 + j')).getD []) = [] := by
        rw [show k + 1 + j' = k + (j' + 1) by omega]
        exact hstrip
      obtain ⟨h1, h2⟩ := ih (k + 1) j' hlt hstrip2
      by_cases hu : pyStrip ((ua k).getD []) = []
      · simp [gradeList, hu, h1]
      · by_cases hm : lowerWord (pyStrip ((ua k).getD [])) = lowerWord c
        · simp [gradeList, hu, hm, h1, h2]
        · simp [gradeList, hu, hm, h1, h2]

/-- C8: whenever the answer at gap `i` is absent (missing dict key), empty or
whitespace-only, the scorer records gap `i` as unanswered and sets the
completeness flag to `false`, regardless of the other gaps — a missing key
degrades to unanswered rather than raising. -/
theorem grade_unanswered_incomplete (ca : List (List Char))
    (ua : Nat → Option (List Char)) (i : Nat) (h1 : i < ca.length)
    (h2 : ua i = none ∨ pyStrip ((ua i).getD []) = []) :
    ((gradeAnswers ca ua).2.1)[i]? = some GapFeedback.unanswered ∧
    (gradeAnswers ca ua).2.2 = false := by
  have hstrip : pyStrip ((ua i).getD []) = [] := by
    rcases h2 with h | h
    · rw [h]; rfl
    · exact h
  have h := gradeList_unanswered ua ca 0 i h1 (by simpa using hstrip)
  simpa [gradeAnswers] using h

/-- C8 witness: with correct answers ["cat", "mat"], a correct answer at
gap 0 and a missing key at gap 1, gap 1 is reported unanswered and
completeness is false. -/
theorem grade_unanswered_incomplete_witness :
    ((gradeAnswers ["cat".toList, "mat".toList]
        (fun i => if i = 0 then some "cat".toList else none)).2.1)[1]?
      = some GapFeedback.unanswered ∧
    (gradeAnswers ["cat".toList, "mat".toList]
        (fun i => if i = 0 then some "cat".toList else none)).2.2 = false :=
  grade_unanswered_incomplete _ _ 1 (by decide) (Or.inl (by decide))

/-- C6 counterexample: grading correct-answer list ["Cat"] against submitted
answer "cat" at gap 0 scores 1/1, not 0/1: the scorer's comparison is the
hard-wired `user_word.lower() == correct_word.lower()`, so no
`caseSensitive=true` behaviour scoring 0/1 exists in the code. -/
theorem grade_no_case_sensitive_mode :
    (gradeAnswers ["Cat".toList] (fun _ => some "cat".toList)).1 = 1 ∧
    (gradeAnswers ["Cat".toList] (fun _ => some "cat".toList)).1 ≠ 0 := by decide

theorem gradeList_all_correct (ua : Nat → Option (List Char)) :
    ∀ (ca : List (List Char)) (k : Nat),
      (∀ j, j < ca.length → ∃ u, ua (k + j) = some u ∧ pyStrip u ≠ [] ∧
          lowerWord (pyStrip u) = lowerWord (ca.getD j [])) →
      gradeList ua k ca = (ca.length, List.replicate ca.length GapFeedback.correctAns, true) := by
  intro ca
  induction ca with
  | nil => intro k _; simp [gradeList]
  | cons c rest ih =>
    intro k h
    obtain ⟨u, hu, hne, heq⟩ := h 0 (by simp)
    simp only [Nat.add_zero] at hu
    have hrest := ih (k + 1) (fun j hj => by
      obtain ⟨v, hv, hvne, hveq⟩ := h (j + 1) (by simpa using Nat.succ_lt_succ hj)
      refine ⟨v, ?_, hvne, ?_⟩
      · rw [show k + 1 + j = k + (j + 1) by omega]
        exact hv
      · simpa using hveq)
    have heq2 : lowerWord (pyStrip u) = lowerWord c := by simpa using heq
    simp [gradeList, hrest, hu, hne, heq2, List.replicate_succ]

/-- C6 (amended): the scorer's case policy is fixed, not configurable: it is
always case-insensitive.  Whenever every submitted answer is non-blank and
equals its correct word up to case after stripping, `gradeAnswers` returns full
score with all-correct feedback and completeness true — in particular
correct-answer list ["Cat"] against submitted "cat" scores 1/1; no
case-sensitive mode (which would score it 0/1) exists. -/
theorem grade_case_insensitive (ca : List (List Char)) (ua : Nat → Option (List Char))
    (h : ∀ j, j < ca.length → ∃ u, ua j = some u ∧ pyStrip u ≠ [] ∧
        lowerWord (pyStrip u) = lowerWord (ca.getD j [])) :
    gradeAnswers ca ua = (ca.length, List.replicate ca.length GapFeedback.correctAns, true) := by
  apply gradeList_all_correct
  intro j hj
  simpa using h j hj

/-- C6 witness: grading ["Cat"] against submitted "cat" scores 1/1 with completeness
true. -/
theorem grade_case_insensitive_witness :
    gradeAnswers ["Cat".toList] (fun _ => some "cat".toList) =
      (1, [GapFeedback.correctAns], true) :=
  grade_case_insensitive _ _ (by
    intro j hj
    obtain rfl : j = 0 := Nat.lt_one_iff.mp (by simpa using hj)
    exact ⟨"cat".toList, rfl, by decide, by decide⟩)

/-! ### The Gemini selection pipeline (lines 34–86 of `app.py`) -/

/-- Outcome of `ast.literal_eval` on the (fence-stripped) response text,
abstracted to what the surrounding code observes: a Python list whose elements
are all strings, a list containing a non-string, a successfully parsed
non-list literal, or (`none`) a parse exception.  `ast.literal_eval` is
standard-library code, so it enters the model as a parameter of this shape. -/
inductive PyLit where
  | strList : List (List Char) → PyLit
  | nonStrList : PyLit
  | nonList : PyLit
deriving DecidableEq

/-- A Python call that either returns a value or escapes with an uncaught
exception. -/
inductive PyResult (α : Type) where
  | ret : α → PyResult α
  | exn : PyResult α
deriving DecidableEq

/-- The Streamlit message emitted on a failure path: `st.error` (missing key,
client-init failure, API call failure) or the `st.warning` of the parse
failure path, which carries `response_text[:50]`. -/
inductive UiMsg where
  | errorMsg : UiMsg
  | warnParse : List Char → UiMsg
deriving DecidableEq

/-- Python `str.replace(pat, rep)` for a non-empty pattern: scan left to
right, replacing non-overlapping occurrences; fuel is the string length. -/
def replaceAllAux (pat rep : List Char) : Nat → List Char → List Char
  | _, [] => []
  | 0, s => s
  | fuel + 1, c :: cs =>
    if pat.isPrefixOf (c :: cs) then
      rep ++ replaceAllAux pat rep fuel ((c :: cs).drop pat.length)
    else c :: replaceAllAux pat rep fuel cs

/-- Python `str.replace` (the empty-pattern case never occurs in the source,
which only replaces code-fence literals). -/
def pyReplace (s pat rep : List Char) : List Char :=
  if pat = [] then s else replaceAllAux pat rep s.length s

/-- Lines 64–65: if the response text starts with a code fence, remove the
fence markers and strip the result. -/
def stripCodeFence (response_text : List Char) : List Char :=
  if "```".toList.isPrefixOf response_text then
    pyStrip (pyReplace (pyReplace (pyReplace response_text "```python".toList [])
      "```json".toList []) "```".toList [])
  else response_text

/-- The prompt f-string of lines 46–50, with `{num_words}` interpolated as a
Python `int`. -/
def geminiPrompt (text : List Char) (num_words : Int) : List Char :=
  "以下の英文から、高校生レベルで文法的に重要な語（関係代名詞、分詞、接続詞、高難度語彙など）を正確に".toList
    ++ (Int.repr num_words).toList
    ++ "個、**他の文字を含めずに**Pythonのリスト形式（例: [\x27word1\x27, \x27word2\x27, \x27word3\x27]）で抜き出して提供してください。\n\n英文: \x27".toList
    ++ text
    ++ "\x27".toList

/-- `get_word_info_from_gemini(text, num_words)`.  The external pieces enter
as parameters: `api` is the key-check / client-init / `generate_content` call
(`none` = any of the `st.error` paths that return `([], [])`), and
`literalEval` is `ast.literal_eval`.  The function builds the prompt from
`text` and `num_words` with no validation of `num_words`, strips the
response, removes code fences, parses, and post-processes with the
dedup/ordering loop (`extractWords`); on parse failure (exception or
non-list literal) it warns with `response_text[:50]` and returns `([], [])`;
a parsed list containing a non-string raises later at `w.lower()`, outside
the `try`, which escapes as an uncaught exception. -/
def get_word_info_from_gemini (api : List Char → Option (List Char))
    (literalEval : List Char → Option PyLit)
    (text : List Char) (num_words : Int) :
    PyResult ((List (List Char) × List (List Char)) × Option UiMsg) :=
  let prompt := geminiPrompt text num_words
  match api prompt with
  | none => .ret (([], []), some .errorMsg)
  | some raw =>
    let response_text := pyStrip raw
    let rt := stripCodeFence response_text
    match literalEval rt with
    | some (PyLit.strList ws) =>
      let final := extractWords text ws
      .ret ((final, final), none)
    | some PyLit.nonStrList => .exn
    | some PyLit.nonList => .ret (([], []), some (.warnParse (rt.take 50)))
    | none => .ret (([], []), some (.warnParse (rt.take 50)))

/-- C7: whenever the service's response text does not parse as a literal list
(`ast.literal_eval` raises, or yields a non-list literal), selection fails
with the parse-failure warning carrying the truncated 50-character preview of
the (stripped) response, and the returned gap set is the empty pair
`([], [])` — never a partial or garbage one. -/
theorem gemini_parse_failure_empty (literalEval : List Char → Option PyLit)
    (text : List Char) (num_words : Int) (resp : List Char)
    (h : literalEval (stripCodeFence (pyStrip resp)) = none ∨
         literalEval (stripCodeFence (pyStrip resp)) = some PyLit.nonList) :
    get_word_info_from_gemini (fun _ => some resp) literalEval text num_words =
      PyResult.ret (([], []),
        some (UiMsg.warnParse ((stripCodeFence (pyStrip resp)).take 50))) := by
  unfold get_word_info_from_gemini
  rcases h with h | h <;> simp [h]

/-- C7 witness: the raw response "not a list" (on which `ast.literal_eval`
raises) produces the parse warning and the empty gap set. -/
theorem gemini_parse_failure_empty_witness :
    get_word_info_from_gemini (fun _ => some "not a list".toList) (fun _ => none)
        "the cat".toList 5 =
      PyResult.ret (([], []),
        some (UiMsg.warnParse ((stripCodeFence (pyStrip "not a list".toList)).take 50))) :=
  gemini_parse_failure_empty _ _ _ _ (Or.inl rfl)

/-- C9 counterexample: a target count of 0 (≤ 0) is not rejected: no
InvalidArgument-style failure exists; the function proceeds with selection and
here returns a successful, non-empty gap set. -/
theorem gemini_nonpositive_count_not_rejected :
    get_word_info_from_gemini (fun _ => some "[\x27cat\x27]".toList)
        (fun s => if s = "[\x27cat\x27]".toList then some (PyLit.strList ["cat".toList])
          else none)
        "the cat".toList 0 =
      PyResult.ret ((["cat".toList], ["cat".toList]), none) := by decide

/-- C9 (amended): `get_word_info_from_gemini` performs no validation of the
target count: for a fixed service response the result is the same for every
`num_words`, including values ≤ 0 — the count only feeds the prompt string.
(Only the UI slider, `min_value=1`, bounds the value in the app.) -/
theorem gemini_ignores_target_count (resp : List Char)
    (literalEval : List Char → Option PyLit) (text : List Char) (n m : Int) :
    get_word_info_from_gemini (fun _ => some resp) literalEval text n =
      get_word_info_from_gemini (fun _ => some resp) literalEval text m := rfl
